import Mathlib

/-!
Verification development for the usbid repository (src/usbid/structure.py and
src/usbid/device.py).  The Python modules are shallowly embedded: directory
entry names are lists of characters, the sysfs subtree visible to the code is
an inductive tree of directories and files, and every fallible Python
operation (os.listdir, open, constructor checks, __getitem__) is modelled in
the Except monad over the exception kinds the code actually raises.

The four regular expressions of structure.py are

  IS_BUS       = "^usb\d$"
  IS_BUS_PORT  = "^\d-\d$"
  IS_SUB_PORT  = "^\d-\d(\.\d)*$"
  IS_INTERFACE = "^\d-\d(\.\d)*:\d.\d$"

Each is embedded as a decidable matcher on character lists.  Note that in
Python `\d` matches exactly one ASCII digit, the unescaped `.` in
IS_INTERFACE matches any character except a newline, and the anchor `$`
also matches just before a single trailing newline; all three facts are
reflected in the embedding below.
-/

namespace Usbid

/-- Directory entry names (and attribute values) are lists of characters. -/
abbrev Name := List Char

/-- Core of IS_BUS ("^usb\d$") without the trailing-newline forgiveness of
the Python `$` anchor: exactly the four characters u s b d with d a digit. -/
def isBusCore : List Char → Bool
  | [u, s, b, d] => (u = 'u') && (s = 's') && (b = 'b') && d.isDigit
  | _ => false

/-- Core of IS_BUS_PORT ("^\d-\d$"): exactly digit, dash, digit. -/
def isBusPortCore : List Char → Bool
  | [b, h, p] => b.isDigit && (h = '-') && p.isDigit
  | _ => false

/-- Matcher for the "(\.\d)*" part of IS_SUB_PORT: a (possibly empty)
sequence of dot-digit pairs reaching the end of the name. -/
def subPortTail : List Char → Bool
  | [] => true
  | c :: d :: rest => (c = '.') && d.isDigit && subPortTail rest
  | _ => false

/-- Core of IS_SUB_PORT ("^\d-\d(\.\d)*$"). -/
def isSubPortCore : List Char → Bool
  | b :: h :: p :: rest => b.isDigit && (h = '-') && p.isDigit && subPortTail rest
  | _ => false

/-- Matcher for the "(\.\d)*:\d.\d$" part of IS_INTERFACE.  The middle `.`
of ":\d.\d" is unescaped in the source, so it matches any single character
except a newline. -/
def ifaceTail : List Char → Bool
  | [k, c, x, i] => (k = ':') && c.isDigit && (x != '\n') && i.isDigit
  | c :: d :: rest => (c = '.') && d.isDigit && ifaceTail rest
  | _ => false

/-- Core of IS_INTERFACE ("^\d-\d(\.\d)*:\d.\d$"). -/
def isInterfaceCore : List Char → Bool
  | b :: h :: p :: rest => b.isDigit && (h = '-') && p.isDigit && ifaceTail rest
  | _ => false

/-- Python `re.match` with a pattern of the form "^...$": the pattern core
must cover the whole string, except that `$` also matches just before a
single newline at the very end of the string. -/
def pyMatchDollar (core : List Char → Bool) (s : List Char) : Bool :=
  core s ||
    (match s.reverse with
     | c :: t => (c = '\n') && core t.reverse
     | [] => false)

/-- IS_BUS.match as used by USB.__iter__. -/
def isBusName (s : Name) : Bool := pyMatchDollar isBusCore s

/-- IS_BUS_PORT.match as used by Bus.__iter__. -/
def isBusPortName (s : Name) : Bool := pyMatchDollar isBusPortCore s

/-- IS_SUB_PORT.match as used by Port.__iter__. -/
def isSubPortName (s : Name) : Bool := pyMatchDollar isSubPortCore s

/-- IS_INTERFACE.match as used by InterfaceProvider.interfaces. -/
def isInterfaceName (s : Name) : Bool := pyMatchDollar isInterfaceCore s

/-- Helper for `afterFirstChar`: drop everything up to and including the
first occurrence of `c`. -/
def dropThrough (c : Char) : List Char → List Char
  | [] => []
  | x :: rest => if x = c then rest else dropThrough c rest

/-- Python `s[s.find(c) + 1:]`: everything after the first occurrence of
`c`, or the whole string when `c` does not occur (find returns -1, and
`s[0:]` is `s`).  Used by Bus.__iter__ with `c = '-'`. -/
def afterFirstChar (c : Char) (s : List Char) : List Char :=
  if s.contains c then dropThrough c s else s

/-- Python `s[s.rfind(c) + 1:]`: everything after the last occurrence of
`c`, or the whole string when `c` does not occur.  Used by Port.__iter__
with `c = '.'`. -/
def afterLastChar (c : Char) (s : List Char) : List Char :=
  (s.reverse.takeWhile (fun x => x != c)).reverse

/-- A snapshot of the part of the filesystem the code can see: a regular
file carries a readability flag and its content, a directory carries its
entries in the order os.listdir yields them. -/
inductive FSNode where
  | file (readable : Bool) (content : List Char)
  | dir (entries : List (Name × FSNode))

/-- One directory entry: a name and the node it resolves to. -/
abbrev Entry := Name × FSNode

/-- The exception kinds raised by the embedded code paths: KeyError from
__getitem__, ValueError from the node constructors, IOError from open,
OSError from os.listdir on a non-directory.  `fuelOut` is an artefact of
the fuelled recursions below and never corresponds to a Python behaviour;
all theorems about recursive traversals are conditioned on a successful
(non-fuelOut) outcome. -/
inductive PyErr where
  | keyError
  | valueError
  | ioError
  | osError
  | fuelOut
deriving DecidableEq

/-- Resolution of a name inside a directory listing (os.path.join followed
by the filesystem lookup).  Duplicate names cannot occur in a real
directory; the model resolves to the first occurrence. -/
def lookupEntry : List Entry → Name → Option FSNode
  | [], _ => none
  | (n, v) :: rest, m => if n = m then some v else lookupEntry rest m

/-- Resolution of a slash-separated path (a list of segment names) from a
root node, one os.path.sep step at a time. -/
def resolvePath : FSNode → List Name → Option FSNode
  | node, [] => some node
  | FSNode.dir es, seg :: rest =>
      match lookupEntry es seg with
      | some v => resolvePath v rest
      | none => none
  | FSNode.file _ _, _ :: _ => none

/-- os.path.isdir for a path below the modelled root. -/
def isDirAt (root : FSNode) (p : List Name) : Bool :=
  match resolvePath root p with
  | some (FSNode.dir _) => true
  | _ => false

/-- USB.__iter__: keys of the root container, `child[3:]` of every listing
entry matched by IS_BUS, in listing order. -/
def usbKeys (names : List Name) : List Name :=
  names.filterMap (fun n => if isBusName n then some (n.drop 3) else none)

/-- Bus.__iter__: `child[child.find('-') + 1:]` of every listing entry
matched by IS_BUS_PORT, in listing order. -/
def busIterKeys (names : List Name) : List Name :=
  names.filterMap
    (fun n => if isBusPortName n then some (afterFirstChar '-' n) else none)

/-- Port.__iter__: `child[child.rfind('.') + 1:]` of every listing entry
matched by IS_SUB_PORT, in listing order. -/
def portIterKeys (names : List Name) : List Name :=
  names.filterMap
    (fun n => if isSubPortName n then some (afterLastChar '.' n) else none)

/-- Child directory name derived by USB.__getitem__: 'usb{key}'. -/
def usbChildName (key : Name) : Name := 'u' :: 's' :: 'b' :: key

/-- Child directory name derived by Bus.__getitem__: '{name}-{key}'. -/
def busChildName (busName key : Name) : Name := busName ++ '-' :: key

/-- Child directory name derived by Port.__getitem__: '{fs_name}.{key}'. -/
def portChildName (fsName key : Name) : Name := fsName ++ '.' :: key

/-- Shared shape of the three __getitem__ methods: resolve the derived
child name in the parent's listing, demand a directory, raise KeyError
otherwise. -/
def getDirEntry (es : List Entry) (n : Name) : Except PyErr FSNode :=
  match lookupEntry es n with
  | some (FSNode.dir ces) => .ok (FSNode.dir ces)
  | _ => .error .keyError

/-- USB.__getitem__: returns the new Bus's (name, subtree); the Bus name is
the key. -/
def usbGetItem (es : List Entry) (key : Name) : Except PyErr (Name × FSNode) :=
  match getDirEntry es (usbChildName key) with
  | .ok v => .ok (key, v)
  | .error e => .error e

/-- Bus.__getitem__: returns the new Port's (fs_name, subtree); the Port's
fs_name is the derived directory name. -/
def busGetItem (busName : Name) (es : List Entry) (key : Name) :
    Except PyErr (Name × FSNode) :=
  match getDirEntry es (busChildName busName key) with
  | .ok v => .ok (busChildName busName key, v)
  | .error e => .error e

/-- Port.__getitem__: returns the nested Port's (fs_name, subtree). -/
def portGetItem (fsName : Name) (es : List Entry) (key : Name) :
    Except PyErr (Name × FSNode) :=
  match getDirEntry es (portChildName fsName key) with
  | .ok v => .ok (portChildName fsName key, v)
  | .error e => .error e

/-- Loop body of InterfaceProvider.interfaces: walk the listing names, keep
those matched by IS_INTERFACE, and construct an Interface for each.  The
Interface constructor raises ValueError when the matched entry is not a
directory. -/
def ifaceBuild (es : List Entry) : List Name → Except PyErr (List (Name × FSNode))
  | [] => .ok []
  | n :: ns =>
    if isInterfaceName n then
      match lookupEntry es n with
      | some (FSNode.dir ces) =>
        match ifaceBuild es ns with
        | .ok t => .ok ((n, FSNode.dir ces) :: t)
        | .error e => .error e
      | _ => .error .valueError
    else ifaceBuild es ns

/-- InterfaceProvider.interfaces on a directory listing. -/
def interfacesOf (es : List Entry) : Except PyErr (List (Name × FSNode)) :=
  ifaceBuild es (es.map Prod.fst)

/-- InterfaceProvider.interfaces on a node: os.listdir raises OSError on a
non-directory. -/
def nodeInterfaces : FSNode → Except PyErr (List (Name × FSNode))
  | FSNode.file _ _ => .error .osError
  | FSNode.dir es => interfacesOf es

/-- The literal entry name "tty". -/
def ttyName : Name := ['t', 't', 'y']

/-- Python str.startswith on character lists (first argument the sought
head). -/
def leadsWith : Name → Name → Bool
  | [], _ => true
  | _ :: _, [] => false
  | a :: as, b :: bs => a = b && leadsWith as bs

/-- Interface.tty's inner match_tty, fuelled: walk the listing; skip
entries not starting with "tty"; return the first other entry starting
with "tty" directly; on an entry named exactly "tty" immediately return
the result of recursing into it (os.listdir raises OSError when that entry
is not a directory).  One unit of fuel is spent per loop step; the fuel is
an upper bound on the work only, and `ttyListAux_mono` shows a successful
outcome is stable under giving more fuel, so "the Python recursion
terminates with r" is "∃ f, ttyListAux f · = .ok r". -/
def ttyListAux : Nat → List Entry → Except PyErr (Option Name)
  | 0, _ => .error .fuelOut
  | _ + 1, [] => .ok none
  | f + 1, (n, sub) :: rest =>
    if leadsWith ttyName n then
      if n = ttyName then
        match sub with
        | FSNode.file _ _ => .error .osError
        | FSNode.dir ces => ttyListAux f ces
      else .ok (some n)
    else ttyListAux f rest

/-- Interface.tty (match_tty applied to a node): os.listdir raises OSError
on a non-directory, otherwise the listing is searched. -/
def ttyNode (f : Nat) : FSNode → Except PyErr (Option Name)
  | FSNode.file _ _ => .error .osError
  | FSNode.dir es => ttyListAux f es

/-- Python 2 str.strip() whitespace characters: space, tab, newline,
carriage return, vertical tab, form feed.  NUL is not among them. -/
def isPyWspace (c : Char) : Bool :=
  c = ' ' || c = '\t' || c = '\n' || c = '\r' || c = '\x0b' || c = '\x0c'

/-- Python str.strip with a character predicate: remove the longest runs of
matching characters from both ends. -/
def pyStripPred (p : Char → Bool) (s : List Char) : List Char :=
  ((s.dropWhile p).reverse.dropWhile p).reverse

/-- str.strip('\n'): only newline characters are removed, only at the two
ends. -/
def stripNl (s : List Char) : List Char := pyStripPred (fun c => c = '\n') s

/-- str.strip() with no argument: whitespace at the two ends. -/
def stripWspace (s : List Char) : List Char := pyStripPred isPyWspace s

/-- str.strip("\n\x00") as used by DeviceNode.idVendor / idProduct:
newline and NUL characters are removed from the two ends. -/
def stripNlNul (s : List Char) : List Char :=
  pyStripPred (fun c => c = '\n' || c = '\x00') s

/-- open(path).read() for an entry of a directory listing: IOError when
the entry is missing, is a directory, or is an unreadable file. -/
def openEntry (es : List Entry) (name : Name) : Except PyErr (List Char) :=
  match lookupEntry es name with
  | some (FSNode.file true c) => .ok c
  | some (FSNode.file false _) => .error .ioError
  | some (FSNode.dir _) => .error .ioError
  | none => .error .ioError

/-- Try-body of FileAttributes.__getattribute__ for an intercepted name:
`file.read().strip('\n').strip()`, with IOError caught and turned into
None. -/
def fileAttrRead (es : List Entry) (name : Name) : Option (List Char) :=
  match openEntry es name with
  | .ok c => some (stripWspace (stripNl c))
  | .error _ => none

/-- FileAttributes.__getattribute__: only names listed in the class's
__file_attributes__ are intercepted and read from disk; other attribute
accesses fall through to normal object attribute lookup (outer `none`
here). -/
def fileAttrGet (attrs : List Name) (es : List Entry) (name : Name) :
    Option (Option (List Char)) :=
  if name ∈ attrs then some (fileAttrRead es name) else none

/-- DeviceNode.idVendor / idProduct from device.py: open the attribute
file (no try/except: errors propagate) and strip "\n\x00" from the two
ends of the content. -/
def dnAttrRead (es : List Entry) (name : Name) : Except PyErr (List Char) :=
  match openEntry es name with
  | .ok c => .ok (stripNlNul c)
  | .error e => .error e

/-- The __file_attributes__ list of Bus in structure.py. -/
def busFileAttrs : List Name :=
  ["authorized".data, "authorized_default".data, "avoid_reset_quirk".data,
   "bcdDevice".data, "bConfigurationValue".data, "bDeviceClass".data,
   "bDeviceProtocol".data, "bDeviceSubClass".data, "bmAttributes".data,
   "bMaxPacketSize0".data, "bMaxPower".data, "bNumConfigurations".data,
   "bNumInterfaces".data, "busnum".data, "dev".data, "devnum".data,
   "devpath".data, "idProduct".data, "idVendor".data, "ltm_capable".data,
   "manufacturer".data, "maxchild".data, "product".data, "quirks".data,
   "removable".data, "serial".data, "speed".data, "uevent".data,
   "urbnum".data, "version".data]

/-- The __file_attributes__ list of Port in structure.py (Bus's list
without authorized_default). -/
def portFileAttrs : List Name :=
  ["authorized".data, "avoid_reset_quirk".data, "bcdDevice".data,
   "bConfigurationValue".data, "bDeviceClass".data, "bDeviceProtocol".data,
   "bDeviceSubClass".data, "bmAttributes".data, "bMaxPacketSize0".data,
   "bMaxPower".data, "bNumConfigurations".data, "bNumInterfaces".data,
   "busnum".data, "dev".data, "devnum".data, "devpath".data,
   "idProduct".data, "idVendor".data, "ltm_capable".data,
   "manufacturer".data, "maxchild".data, "product".data, "quirks".data,
   "removable".data, "serial".data, "speed".data, "uevent".data,
   "urbnum".data, "version".data]

/-- The __file_attributes__ list of Interface in structure.py. -/
def ifaceFileAttrs : List Name :=
  ["bAlternateSetting".data, "bInterfaceClass".data,
   "bInterfaceNumber".data, "bInterfaceProtocol".data,
   "bInterfaceSubClass".data, "bNumEndpoints".data, "interface".data,
   "modalias".data, "supports_autosuspend".data, "uevent".data]

/-- A constructed Bus object: its key under the root and its path. -/
structure BusObj where
  name : Name
  fsPath : List Name

/-- A constructed Port object. -/
structure PortObj where
  name : Name
  fsPath : List Name

/-- A constructed Interface object. -/
structure IfaceObj where
  fsPath : List Name

/-- A constructed USB root object. -/
structure USBObj where
  fsPath : List Name

/-- Bus.__init__: raise ValueError unless the given path is a directory. -/
def busInit (root : FSNode) (name : Name) (p : List Name) :
    Except PyErr BusObj :=
  if isDirAt root p then .ok ⟨name, p⟩ else .error .valueError

/-- Port.__init__: raise ValueError unless the given path is a directory. -/
def portInit (root : FSNode) (name : Name) (p : List Name) :
    Except PyErr PortObj :=
  if isDirAt root p then .ok ⟨name, p⟩ else .error .valueError

/-- Interface.__init__: raise ValueError unless the given path is a
directory. -/
def ifaceInit (root : FSNode) (p : List Name) : Except PyErr IfaceObj :=
  if isDirAt root p then .ok ⟨p⟩ else .error .valueError

/-- USB.__init__: just stores the path, with no validation of any kind. -/
def usbInit (_root : FSNode) (p : List Name) : Except PyErr USBObj :=
  .ok ⟨p⟩

/-- The kind of a container node during aggregation, carrying exactly the
data its child derivation uses: nothing for the root, `self.name` for a
Bus, `self.fs_name` for a Port. -/
inductive NKind where
  | root
  | bus (name : Name)
  | port (fsName : Name)

/-- Error-propagating map, mirroring a Python list comprehension in which
each element evaluation can raise. -/
def mapE (f : α → Except PyErr β) : List α → Except PyErr (List β)
  | [] => .ok []
  | a :: as =>
    match f a with
    | .error e => .error e
    | .ok b =>
      match mapE f as with
      | .error e => .error e
      | .ok bs => .ok (b :: bs)

/-- Container.values() = [self[key] for key in self]: derive the keys from
the listing per the node's kind, then fetch each child through the node's
__getitem__ (KeyError when a derived name is missing or not a directory).
The result pairs each child with its own NKind for further traversal. -/
def childDerive : NKind → List Entry → Except PyErr (List (NKind × FSNode))
  | NKind.root, es =>
    mapE (fun k =>
      match usbGetItem es k with
      | .ok kv => .ok (NKind.bus kv.1, kv.2)
      | .error e => .error e) (usbKeys (es.map Prod.fst))
  | NKind.bus bn, es =>
    mapE (fun k =>
      match busGetItem bn es k with
      | .ok kv => .ok (NKind.port kv.1, kv.2)
      | .error e => .error e) (busIterKeys (es.map Prod.fst))
  | NKind.port pn, es =>
    mapE (fun k =>
      match portGetItem pn es k with
      | .ok kv => .ok (NKind.port kv.1, kv.2)
      | .error e => .error e) (portIterKeys (es.map Prod.fst))

/-- The tty-filter loop of aggregated_interfaces with tty=True: an
interface is skipped when iface.tty is None; evaluating iface.tty can
itself raise. -/
def filterTtyE (f : Nat) : List (Name × FSNode) → Except PyErr (List (Name × FSNode))
  | [] => .ok []
  | i :: rest =>
    match ttyNode f i.2 with
    | .error e => .error e
    | .ok none => filterTtyE f rest
    | .ok (some _) =>
      match filterTtyE f rest with
      | .ok t => .ok (i :: t)
      | .error e => .error e

/-- The two mutually recursive pieces of AggregatedInterfaces.aggregate:
entering a node (list its children) and the for-loop over the children
just derived. -/
inductive AggTask where
  | node (kind : NKind) (n : FSNode)
  | kids (cs : List (NKind × FSNode))

/-- AggregatedInterfaces.aggregated_interfaces's recursive worker,
fuelled (one unit per call or loop step; every theorem about it is
conditioned on a successful, non-fuelOut outcome).  Entering a node lists
it (OSError on a non-directory) and derives its children; the loop over
the children appends, for each child in order, the child's (optionally
tty-filtered) interfaces, then everything aggregated below that child,
then the remaining children's contribution. -/
def aggAux : Nat → Bool → AggTask → Except PyErr (List (Name × FSNode))
  | 0, _, _ => .error .fuelOut
  | f + 1, tty, AggTask.node kind n =>
    match n with
    | FSNode.file _ _ => .error .osError
    | FSNode.dir es =>
      match childDerive kind es with
      | .error e => .error e
      | .ok cs => aggAux f tty (AggTask.kids cs)
  | _ + 1, _, AggTask.kids [] => .ok []
  | f + 1, tty, AggTask.kids ((ck, cn) :: rest) =>
    match nodeInterfaces cn with
    | .error e => .error e
    | .ok li =>
      match (if tty then filterTtyE (f + 1) li else .ok li) with
      | .error e => .error e
      | .ok kept =>
        match aggAux f tty (AggTask.node ck cn) with
        | .error e => .error e
        | .ok sub =>
          match aggAux f tty (AggTask.kids rest) with
          | .error e => .error e
          | .ok tail => .ok (kept ++ sub ++ tail)

/-- USB.aggregated_interfaces(tty): aggregation started at the root. -/
def aggregatedInterfaces (fuel : Nat) (root : FSNode) (tty : Bool) :
    Except PyErr (List (Name × FSNode)) :=
  aggAux fuel tty (AggTask.node NKind.root root)

/-- One traversal step of the aggregation: `c` is among the children
values() derives for a listed directory node. -/
inductive ChildOf : NKind × FSNode → NKind × FSNode → Prop where
  | intro (kind : NKind) (es : List Entry) (cs : List (NKind × FSNode))
      (c : NKind × FSNode) : childDerive kind es = .ok cs → c ∈ cs →
      ChildOf (kind, FSNode.dir es) c

/-- Proper descendant through one or more traversal steps. -/
inductive Reach : NKind × FSNode → NKind × FSNode → Prop where
  | base {a b : NKind × FSNode} : ChildOf a b → Reach a b
  | step {a b c : NKind × FSNode} : ChildOf a b → Reach b c → Reach a c

/-- Node `c` exposes interface `i` through InterfaceProvider.interfaces. -/
def HasIface (c : NKind × FSNode) (i : Name × FSNode) : Prop :=
  ∃ li, nodeInterfaces c.2 = .ok li ∧ i ∈ li

/-- Modelled from the spec: depth-first collection over the subtree below a
node — for each child in enumeration order, first that child's interfaces,
then everything collected below the child, parents before children, as one
flat list.  Used only to compare the code's aggregation against the spec's
description of it. -/
def specDfsAux : Nat → AggTask → Except PyErr (List (Name × FSNode))
  | 0, _ => .error .fuelOut
  | f + 1, AggTask.node kind n =>
    match n with
    | FSNode.file _ _ => .error .osError
    | FSNode.dir es =>
      match childDerive kind es with
      | .error e => .error e
      | .ok cs => specDfsAux f (AggTask.kids cs)
  | _ + 1, AggTask.kids [] => .ok []
  | f + 1, AggTask.kids ((ck, cn) :: rest) =>
    match nodeInterfaces cn with
    | .error e => .error e
    | .ok li =>
      match specDfsAux f (AggTask.node ck cn) with
      | .error e => .error e
      | .ok sub =>
        match specDfsAux f (AggTask.kids rest) with
        | .error e => .error e
        | .ok tail => .ok (li ++ sub ++ tail)

/-- Delimiter characters of the device naming scheme. -/
def isDelim (c : Char) : Bool := c = '-' || c = '.'

/-- Split a name at its delimiters, keeping the (possibly empty) segments. -/
def splitSegs : List Char → List (List Char)
  | [] => [[]]
  | c :: rest =>
    match splitSegs rest with
    | [] => [[]]
    | s :: ss => if isDelim c then [] :: s :: ss else (c :: s) :: ss

/-- Numeric value of an ASCII digit character. -/
def charDigitVal (c : Char) : Nat := c.toNat - 48

/-- Numeric value of a digit-run segment. -/
def segVal (s : List Char) : Nat := s.foldl (fun a c => 10 * a + charDigitVal c) 0

/-- The integers between the delimiters of a name, left to right. -/
def parseSegs (n : Name) : List Nat := (splitSegs n).map segVal

/-- The characters contributed by the "(\.\d)*" loop: one dot before each
digit. -/
def dotPairs : List Char → List Char
  | [] => []
  | d :: ds => '.' :: d :: dotPairs ds

/-- The exact set of names the source's IS_INTERFACE core accepts: single
digits for the bus, first port, nested ports, config and interface number,
and any single non-newline character where the spec expects the literal
dot between config and interface number. -/
def InterfaceShape (n : Name) : Prop :=
  ∃ b p ds c x i,
    b.isDigit = true ∧ p.isDigit = true ∧ (∀ d ∈ ds, d.isDigit = true) ∧
    c.isDigit = true ∧ x ≠ '\n' ∧ i.isDigit = true ∧
    n = b :: '-' :: p :: (dotPairs ds ++ ':' :: c :: x :: [i])

/-- The conclusion of the forward membership lemma, per task form: an
interface in the aggregated output belongs to some node reachable from
the task's node (or from one of the loop's pending children). -/
def AggConc : AggTask → (Name × FSNode) → Prop
  | AggTask.node k n, i => ∃ c, Reach (k, n) c ∧ HasIface c i
  | AggTask.kids cs, i =>
      ∃ c0, c0 ∈ cs ∧ (HasIface c0 i ∨ ∃ c, Reach c0 c ∧ HasIface c i)

/-! Helper lemmas. -/

theorem digit_ne_of_not_digit {c d : Char} (h : c.isDigit = true)
    (hd : d.isDigit = false) : c ≠ d := by
  intro he
  rw [he, hd] at h
  cases h

theorem digit_not_ws {c : Char} (h : c.isDigit = true) : isPyWspace c = false := by
  have h1 : c ≠ ' ' := digit_ne_of_not_digit h (by decide)
  have h2 : c ≠ '\t' := digit_ne_of_not_digit h (by decide)
  have h3 : c ≠ '\n' := digit_ne_of_not_digit h (by decide)
  have h4 : c ≠ '\r' := digit_ne_of_not_digit h (by decide)
  have h5 : c ≠ '\x0b' := digit_ne_of_not_digit h (by decide)
  have h6 : c ≠ '\x0c' := digit_ne_of_not_digit h (by decide)
  simp [isPyWspace, h1, h2, h3, h4, h5, h6]

theorem dropWhile_head_false {p : Char → Bool} {a : Char} {l : List Char}
    (h : p a = false) : List.dropWhile p (a :: l) = a :: l := by
  simp [List.dropWhile, h]

theorem pyStripPred_clean {p : Char → Bool} {s : List Char}
    (hhead : ∀ a r, s = a :: r → p a = false)
    (hlast : ∀ b r, s.reverse = b :: r → p b = false) :
    pyStripPred p s = s := by
  unfold pyStripPred
  cases hs : s with
  | nil => rfl
  | cons a r =>
    rw [dropWhile_head_false (hhead a r hs)]
    have : (a :: r).reverse ≠ [] := by simp
    obtain ⟨b, t, hbt⟩ := List.exists_cons_of_ne_nil this
    rw [hbt, dropWhile_head_false (hlast b t (by rw [hs, hbt])), ← hbt,
      List.reverse_reverse]

/-! Claim C6.  The claim says a successful attribute read strips the
trailing newline and embedded NUL bytes and trims whitespace, so that a
file containing "0403\n\x00" reads back as "0403".  The FileAttributes
reader of structure.py computes strip('\n').strip(), which removes neither
a NUL byte nor a newline shielded behind one, so the claim fails there;
the DeviceNode reader of device.py computes strip("\n\x00") and does
return "0403". -/

/-- Claim C6, counterexample: the structure.py attribute read of a file
containing "0403\n\x00" returns the content unchanged, not "0403". -/
theorem c6_counterexample :
    fileAttrRead [("idVendor".data, FSNode.file true "0403\n\x00".data)]
      "idVendor".data = some "0403\n\x00".data ∧
    "0403\n\x00".data ≠ "0403".data := by
  exact ⟨rfl, by decide⟩

/-- Claim C6, amended: for nonempty all-digit content followed by a
newline and a NUL byte, the structure.py FileAttributes read returns the
content unchanged (strip('\n').strip() removes neither the NUL nor the
newline in front of it), while the device.py DeviceNode read
(strip("\n\x00")) returns just the digits.  Embedded bytes are never
touched by either reader. -/
theorem c6_amended_attr_read :
    ∀ (name : Name) (s : List Char), s ≠ [] → (∀ c ∈ s, c.isDigit = true) →
    fileAttrRead [(name, FSNode.file true (s ++ ['\n', '\x00']))] name =
      some (s ++ ['\n', '\x00']) ∧
    dnAttrRead [(name, FSNode.file true (s ++ ['\n', '\x00']))] name = .ok s := by
  intro name s hne hdig
  obtain ⟨a, s0, rfl⟩ := List.exists_cons_of_ne_nil hne
  have ha : a.isDigit = true := hdig a (List.mem_cons_self a s0)
  have hanl : a ≠ '\n' := digit_ne_of_not_digit ha (by decide)
  have han0 : a ≠ '\x00' := digit_ne_of_not_digit ha (by decide)
  have hrevne : (a :: s0 ++ ['\n', '\x00']).reverse =
      '\x00' :: '\n' :: (a :: s0).reverse := by
    simp
  have hsrev : (a :: s0).reverse ≠ [] := by simp
  obtain ⟨b, t, hbt⟩ := List.exists_cons_of_ne_nil hsrev
  have hbmem : b ∈ a :: s0 := by
    rw [← List.mem_reverse, hbt]
    exact List.mem_cons_self b t
  have hb : b.isDigit = true := hdig b hbmem
  have hbnl : b ≠ '\n' := digit_ne_of_not_digit hb (by decide)
  have hbn0 : b ≠ '\x00' := digit_ne_of_not_digit hb (by decide)
  have hopen : openEntry [(name, FSNode.file true (a :: s0 ++ ['\n', '\x00']))] name =
      .ok (a :: s0 ++ ['\n', '\x00']) := by
    simp [openEntry, lookupEntry]
  have hnl : stripNl (a :: s0 ++ ['\n', '\x00']) = a :: s0 ++ ['\n', '\x00'] := by
    unfold stripNl pyStripPred
    rw [show a :: s0 ++ ['\n', '\x00'] = a :: (s0 ++ ['\n', '\x00']) from rfl]
    rw [dropWhile_head_false (by simp [hanl])]
    rw [show a :: (s0 ++ ['\n', '\x00']) = a :: s0 ++ ['\n', '\x00'] from rfl,
      hrevne]
    rw [dropWhile_head_false (by decide)]
    rw [← hrevne, List.reverse_reverse]
  have hws : stripWspace (a :: s0 ++ ['\n', '\x00']) = a :: s0 ++ ['\n', '\x00'] := by
    unfold stripWspace pyStripPred
    rw [show a :: s0 ++ ['\n', '\x00'] = a :: (s0 ++ ['\n', '\x00']) from rfl]
    rw [dropWhile_head_false (digit_not_ws ha)]
    rw [show a :: (s0 ++ ['\n', '\x00']) = a :: s0 ++ ['\n', '\x00'] from rfl,
      hrevne]
    rw [dropWhile_head_false (by decide)]
    rw [← hrevne, List.reverse_reverse]
  have hnn : stripNlNul (a :: s0 ++ ['\n', '\x00']) = a :: s0 := by
    unfold stripNlNul pyStripPred
    rw [show a :: s0 ++ ['\n', '\x00'] = a :: (s0 ++ ['\n', '\x00']) from rfl]
    rw [dropWhile_head_false (by simp [hanl, han0])]
    rw [show a :: (s0 ++ ['\n', '\x00']) = a :: s0 ++ ['\n', '\x00'] from rfl,
      hrevne]
    rw [show List.dropWhile (fun c => decide (c = '\n') || decide (c = '\x00'))
        ('\x00' :: '\n' :: (a :: s0).reverse) =
        List.dropWhile (fun c => decide (c = '\n') || decide (c = '\x00'))
        ((a :: s0).reverse) by simp [List.dropWhile]]
    rw [hbt]
    rw [dropWhile_head_false (by simp [hbnl, hbn0])]
    rw [← hbt, List.reverse_reverse]
  constructor
  · calc fileAttrRead [(name, FSNode.file true (a :: s0 ++ ['\n', '\x00']))] name
        = some (stripWspace (stripNl (a :: s0 ++ ['\n', '\x00']))) := by
          unfold fileAttrRead
          rw [hopen]
      _ = some (a :: s0 ++ ['\n', '\x00']) := by rw [hnl, hws]
  · calc dnAttrRead [(name, FSNode.file true (a :: s0 ++ ['\n', '\x00']))] name
        = .ok (stripNlNul (a :: s0 ++ ['\n', '\x00'])) := by
          unfold dnAttrRead
          rw [hopen]
      _ = .ok (a :: s0) := by rw [hnn]

/-- Witness for c6_amended_attr_read at the spec's own example "0403". -/
theorem c6_amended_attr_read_witness :
    fileAttrRead [("idVendor".data, FSNode.file true ("0403".data ++ ['\n', '\x00']))]
      "idVendor".data = some ("0403".data ++ ['\n', '\x00']) ∧
    dnAttrRead [("idVendor".data, FSNode.file true ("0403".data ++ ['\n', '\x00']))]
      "idVendor".data = .ok "0403".data :=
  c6_amended_attr_read "idVendor".data "0403".data (by decide) (by decide)

/-- Claim C7: for every recognized attribute name (a member of one of the
three __file_attributes__ lists), if the attribute file is missing, is not
a regular file, or is unreadable, the intercepted attribute read evaluates
to the absence marker None instead of raising. -/
theorem c7_attr_failure_absent :
    ∀ (attrs : List Name) (es : List Entry) (name : Name),
    name ∈ attrs →
    (attrs = busFileAttrs ∨ attrs = portFileAttrs ∨ attrs = ifaceFileAttrs) →
    (lookupEntry es name = none ∨
      (∃ ces, lookupEntry es name = some (FSNode.dir ces)) ∨
      (∃ c, lookupEntry es name = some (FSNode.file false c))) →
    fileAttrGet attrs es name = some none := by
  intro attrs es name hmem _ hfail
  unfold fileAttrGet
  rw [if_pos hmem]
  unfold fileAttrRead openEntry
  rcases hfail with h | ⟨ces, h⟩ | ⟨c, h⟩ <;> rw [h]

/-- Witness for c7_attr_failure_absent: idVendor intercepted on an empty
directory. -/
theorem c7_attr_failure_absent_witness :
    fileAttrGet busFileAttrs [] "idVendor".data = some none :=
  c7_attr_failure_absent busFileAttrs [] "idVendor".data (by decide)
    (Or.inl rfl) (Or.inl rfl)

/-! Claim C4.  The claim says a syntactically valid but absent coordinate
yields NotFound while a malformed coordinate (negative or non-numeric)
yields a distinct InvalidAddress outcome.  The code has no such
distinction: __getitem__ formats any key into the derived child name and
raises the same KeyError whenever that name is not an existing
directory. -/

/-- Claim C4, counterexample: on a bus named "1" whose directory holds
only "1-2", the malformed key "-3" and the well-formed but absent key "3"
produce the very same outcome, KeyError — no distinct InvalidAddress
outcome exists. -/
theorem c4_counterexample :
    busGetItem "1".data [("1-2".data, FSNode.dir [])] "-3".data =
      busGetItem "1".data [("1-2".data, FSNode.dir [])] "3".data ∧
    busGetItem "1".data [("1-2".data, FSNode.dir [])] "3".data =
      .error .keyError := by
  exact ⟨rfl, rfl⟩

/-- Claim C4, amended: every __getitem__ (USB, Bus, Port) raises KeyError
whenever the derived child directory name does not resolve to a directory,
whether the key is well-formed or malformed; no separate InvalidAddress
outcome exists in the code. -/
theorem c4_amended_keyerror :
    (∀ (es : List Entry) (key : Name),
      (∀ ces, lookupEntry es (usbChildName key) ≠ some (FSNode.dir ces)) →
      usbGetItem es key = .error .keyError) ∧
    (∀ (bn : Name) (es : List Entry) (key : Name),
      (∀ ces, lookupEntry es (busChildName bn key) ≠ some (FSNode.dir ces)) →
      busGetItem bn es key = .error .keyError) ∧
    (∀ (pn : Name) (es : List Entry) (key : Name),
      (∀ ces, lookupEntry es (portChildName pn key) ≠ some (FSNode.dir ces)) →
      portGetItem pn es key = .error .keyError) := by
  refine ⟨?_, ?_, ?_⟩
  · intro es key hno
    unfold usbGetItem getDirEntry
    cases hl : lookupEntry es (usbChildName key) with
    | none => rfl
    | some v =>
      cases v with
      | file r c => rfl
      | dir ces => exact absurd hl (hno ces)
  · intro bn es key hno
    unfold busGetItem getDirEntry
    cases hl : lookupEntry es (busChildName bn key) with
    | none => rfl
    | some v =>
      cases v with
      | file r c => rfl
      | dir ces => exact absurd hl (hno ces)
  · intro pn es key hno
    unfold portGetItem getDirEntry
    cases hl : lookupEntry es (portChildName pn key) with
    | none => rfl
    | some v =>
      cases v with
      | file r c => rfl
      | dir ces => exact absurd hl (hno ces)

/-- Witness for c4_amended_keyerror: a malformed negative key on an empty
bus directory raises KeyError. -/
theorem c4_amended_keyerror_witness :
    busGetItem "1".data [] "-3".data = .error .keyError :=
  c4_amended_keyerror.2.1 "1".data [] "-3".data (fun _ h => Option.noConfusion h)

/-! Shape characterizations of the embedded regex matchers. -/

theorem isBusPortCore_iff (n : Name) :
    isBusPortCore n = true ↔
    ∃ b p, b.isDigit = true ∧ p.isDigit = true ∧ n = [b, '-', p] := by
  constructor
  · intro h
    match n with
    | [] => simp [isBusPortCore] at h
    | [a] => simp [isBusPortCore] at h
    | [a, b] => simp [isBusPortCore] at h
    | [b, hh, p] =>
      simp only [isBusPortCore, Bool.and_eq_true, decide_eq_true_eq] at h
      exact ⟨b, p, h.1.1, h.2, by rw [h.1.2]⟩
    | a :: b :: c :: d :: r => simp [isBusPortCore] at h
  · rintro ⟨b, p, hb, hp, rfl⟩
    simp [isBusPortCore, hb, hp]

theorem pyMatchDollar_iff (core : List Char → Bool) (s : List Char) :
    pyMatchDollar core s = true ↔
    core s = true ∨ ∃ t, s = t ++ ['\n'] ∧ core t = true := by
  unfold pyMatchDollar
  rw [Bool.or_eq_true]
  cases hr : s.reverse with
  | nil =>
    have hs : s = [] := by
      rw [← List.reverse_reverse s, hr]
      rfl
    subst hs
    constructor
    · rintro (h | h)
      · exact Or.inl h
      · cases h
    · rintro (h | ⟨t, ht, _⟩)
      · exact Or.inl h
      · exact absurd ht.symm (by simp)
  | cons c t =>
    have hs : s = t.reverse ++ [c] := by
      rw [← List.reverse_reverse s, hr]
      simp
    constructor
    · rintro (h | h)
      · exact Or.inl h
      · simp only [Bool.and_eq_true, decide_eq_true_eq] at h
        refine Or.inr ⟨t.reverse, ?_, h.2⟩
        rw [hs, h.1]
    · rintro (h | ⟨u, hu, hcu⟩)
      · exact Or.inl h
      · refine Or.inr ?_
        have : t.reverse ++ [c] = u ++ ['\n'] := by rw [← hs, hu]
        have hlen : ([c] : List Char).length = (['\n'] : List Char).length := rfl
        obtain ⟨h1, h2⟩ := List.append_inj' this hlen
        have hc : c = '\n' := by
          injection h2 with h2a
        simp only [Bool.and_eq_true, decide_eq_true_eq]
        exact ⟨hc, by rw [h1]; exact hcu⟩

theorem afterFirst_dash {b : Char} (hb : b.isDigit = true) (r : List Char) :
    afterFirstChar '-' (b :: '-' :: r) = r := by
  have hbne : b ≠ '-' := digit_ne_of_not_digit hb (by decide)
  have hcont : (b :: '-' :: r).contains '-' = true := by
    simp [List.contains]
  unfold afterFirstChar
  rw [if_pos hcont]
  unfold dropThrough
  rw [if_neg hbne]
  unfold dropThrough
  rw [if_pos rfl]

/-- Claim C1, counterexample: the multi-digit port name "1-10" (bus part
equal to the parent bus 1) is not classified as a first-level port at all,
while "1-1" followed by a newline is accepted with only a prefix of the
name matched by the pattern. -/
theorem c1_counterexample :
    busIterKeys ["1-10".data] = [] ∧
    busIterKeys ["1-1\n".data] = ["1\n".data] := by
  exact ⟨rfl, rfl⟩

/-- Claim C1, amended: Bus child enumeration accepts exactly the names
consisting of one digit, a dash and one digit — optionally followed by one
trailing newline, which Python's $ anchor tolerates — and yields everything
after the dash as the port coordinate.  Multi-digit digit runs such as
"1-10" are never accepted, and the bus part is not compared with the
parent bus number. -/
theorem c1_amended_classification :
    ∀ (names : List Name) (k : Name),
    k ∈ busIterKeys names ↔
    ∃ b p, b.isDigit = true ∧ p.isDigit = true ∧
      (([b, '-', p] ∈ names ∧ k = [p]) ∨
       ([b, '-', p, '\n'] ∈ names ∧ k = [p, '\n'])) := by
  intro names k
  unfold busIterKeys
  rw [List.mem_filterMap]
  constructor
  · rintro ⟨n, hn, hf⟩
    by_cases hm : isBusPortName n = true
    · rw [if_pos hm] at hf
      have hk := Option.some.inj hf
      rcases (pyMatchDollar_iff isBusPortCore n).mp hm with hcore | ⟨t, rfl, hcore⟩
      · obtain ⟨b, p, hb, hp, rfl⟩ := (isBusPortCore_iff _).mp hcore
        refine ⟨b, p, hb, hp, Or.inl ⟨hn, ?_⟩⟩
        rw [← hk]
        exact afterFirst_dash hb [p]
      · obtain ⟨b, p, hb, hp, rfl⟩ := (isBusPortCore_iff _).mp hcore
        refine ⟨b, p, hb, hp, Or.inr ⟨hn, ?_⟩⟩
        rw [← hk]
        exact afterFirst_dash hb [p, '\n']
    · rw [if_neg hm] at hf
      cases hf
  · rintro ⟨b, p, hb, hp, ⟨hn, rfl⟩ | ⟨hn, rfl⟩⟩
    · refine ⟨[b, '-', p], hn, ?_⟩
      have hm : isBusPortName [b, '-', p] = true := by
        apply (pyMatchDollar_iff _ _).mpr
        exact Or.inl ((isBusPortCore_iff _).mpr ⟨b, p, hb, hp, rfl⟩)
      rw [if_pos hm, afterFirst_dash hb [p]]
    · refine ⟨[b, '-', p, '\n'], hn, ?_⟩
      have hm : isBusPortName [b, '-', p, '\n'] = true := by
        apply (pyMatchDollar_iff _ _).mpr
        refine Or.inr ⟨[b, '-', p], by simp, ?_⟩
        exact (isBusPortCore_iff _).mpr ⟨b, p, hb, hp, rfl⟩
      rw [if_pos hm, afterFirst_dash hb [p, '\n']]

/-- Witness for c1_amended_classification: "1-1" in a listing yields port
coordinate "1". -/
theorem c1_amended_classification_witness :
    (['1'] : Name) ∈ busIterKeys [['1', '-', '1']] :=
  (c1_amended_classification [['1', '-', '1']] ['1']).mpr
    ⟨'1', '1', by decide, by decide, Or.inl ⟨List.mem_singleton.mpr rfl, rfl⟩⟩

/-! Lemmas for the nested-port round trip (claim C2). -/

theorem subPortTail_append_pair :
    ∀ (t : List Char), subPortTail t = true → ∀ d, d.isDigit = true →
    subPortTail (t ++ ['.', d]) = true := by
  have key : ∀ (n : Nat) (t : List Char), t.length ≤ n → subPortTail t = true →
      ∀ d, d.isDigit = true → subPortTail (t ++ ['.', d]) = true := by
    intro n
    induction n with
    | zero =>
      intro t ht h d hd
      have ht0 : t = [] := List.eq_nil_of_length_eq_zero (Nat.le_zero.mp ht)
      subst ht0
      simp [subPortTail, hd]
    | succ m ih =>
      intro t ht h d hd
      match t with
      | [] => simp [subPortTail, hd]
      | [c] => simp [subPortTail] at h
      | c :: e :: rest =>
        simp only [subPortTail, Bool.and_eq_true, decide_eq_true_eq] at h
        show subPortTail (c :: e :: (rest ++ ['.', d])) = true
        simp only [subPortTail, Bool.and_eq_true, decide_eq_true_eq]
        refine ⟨⟨h.1.1, h.1.2⟩, ih rest ?_ h.2 d hd⟩
        simp only [List.length_cons] at ht
        omega
  intro t
  exact key t.length t (Nat.le_refl _)

theorem isSubPortCore_append (P : List Char) (hP : isSubPortCore P = true)
    (d : Char) (hd : d.isDigit = true) :
    isSubPortCore (P ++ ['.', d]) = true := by
  match P with
  | [] => simp [isSubPortCore] at hP
  | [a] => simp [isSubPortCore] at hP
  | [a, b] => simp [isSubPortCore] at hP
  | b :: hh :: p :: rest =>
    simp only [isSubPortCore, Bool.and_eq_true, decide_eq_true_eq] at hP
    show isSubPortCore (b :: hh :: p :: (rest ++ ['.', d])) = true
    simp only [isSubPortCore, Bool.and_eq_true, decide_eq_true_eq]
    exact ⟨⟨⟨hP.1.1.1, hP.1.1.2⟩, hP.1.2⟩,
      subPortTail_append_pair rest hP.2 d hd⟩

theorem splitSegs_ne_nil : ∀ (l : List Char), splitSegs l ≠ [] := by
  intro l
  cases l with
  | nil => simp [splitSegs]
  | cons c rest =>
    unfold splitSegs
    cases hs : splitSegs rest with
    | nil => simp
    | cons s ss =>
      by_cases h : isDelim c = true <;> simp [h]

theorem splitSegs_append_dot_digit :
    ∀ (xs : List Char) (d : Char), isDelim d = false →
    splitSegs (xs ++ ['.', d]) = splitSegs xs ++ [[d]] := by
  intro xs d hd
  have hdot : isDelim '.' = true := by decide
  induction xs with
  | nil =>
    show splitSegs ['.', d] = [[]] ++ [[d]]
    have h1 : splitSegs [d] = [[d]] := by
      simp only [splitSegs]
      simp [hd]
    have h2 : splitSegs ['.', d] = [] :: [d] :: [] := by
      show (match splitSegs [d] with
        | [] => [[]]
        | s :: ss => if isDelim '.' then [] :: s :: ss else ('.' :: s) :: ss) = _
      rw [h1]
      simp [hdot]
    rw [h2]
    rfl
  | cons c rest ih =>
    obtain ⟨s, ss, hss⟩ : ∃ s ss, splitSegs rest = s :: ss := by
      cases h : splitSegs rest with
      | nil => exact absurd h (splitSegs_ne_nil rest)
      | cons s ss => exact ⟨s, ss, rfl⟩
    show splitSegs (c :: (rest ++ ['.', d])) = splitSegs (c :: rest) ++ [[d]]
    unfold splitSegs
    rw [ih, hss]
    by_cases hc : isDelim c = true
    · simp [hc]
    · simp [hc]

theorem segVal_single (d : Char) : segVal [d] = charDigitVal d := by
  simp [segVal]

theorem parseSegs_append_dot_digit (P : List Char) (d : Char)
    (hd : isDelim d = false) :
    parseSegs (P ++ ['.', d]) = parseSegs P ++ [charDigitVal d] := by
  unfold parseSegs
  rw [splitSegs_append_dot_digit P d hd]
  simp [segVal_single]

theorem afterLast_append_dot (P : List Char) (d : Char) (hd : d ≠ '.') :
    afterLastChar '.' (P ++ ['.', d]) = [d] := by
  unfold afterLastChar
  rw [show (P ++ ['.', d]).reverse = d :: '.' :: P.reverse by simp]
  have hbne : (d != '.') = true := by simp [hd]
  simp [List.takeWhile, hbne]

/-- Claim C2, counterexample: the nested-port name "1-1.10" - its
segments digit runs, a dot-separated extension of the parent "1-1" - is
not classified as a nested port at all, so no coordinate is yielded for
it (\d of IS_SUB_PORT accepts exactly one digit). -/
theorem c2_counterexample :
    portIterKeys ["1-1.10".data] = [] ∧
    isSubPortName "1-1.10".data = false := by
  exact ⟨rfl, rfl⟩

/-- Claim C2, amended: for a nested-port name N the code accepts - the
parent Port's own matched name extended by one dot and one single digit -
classification relative to the parent yields the rightmost segment as the
port key, the integers between N's delimiters are the parent's integers
extended by that key's value, and Port.__getitem__'s name generation rule
applied to the parent name and the extracted key reproduces N exactly
(round trip).  Names with multi-digit segments are not classified. -/
theorem c2_nested_port_round_trip :
    ∀ (P : Name) (d : Char), isSubPortCore P = true → d.isDigit = true →
    isSubPortName (portChildName P [d]) = true ∧
    afterLastChar '.' (portChildName P [d]) = [d] ∧
    portChildName P (afterLastChar '.' (portChildName P [d])) =
      portChildName P [d] ∧
    parseSegs (portChildName P [d]) = parseSegs P ++ [charDigitVal d] ∧
    (∀ names, portChildName P [d] ∈ names → [d] ∈ portIterKeys names) := by
  intro P d hP hd
  have hdd : d ≠ '.' := digit_ne_of_not_digit hd (by decide)
  have hpc : portChildName P [d] = P ++ ['.', d] := rfl
  have hcore : isSubPortCore (P ++ ['.', d]) = true :=
    isSubPortCore_append P hP d hd
  have hname : isSubPortName (portChildName P [d]) = true := by
    rw [hpc]
    exact (pyMatchDollar_iff _ _).mpr (Or.inl hcore)
  have hlast : afterLastChar '.' (portChildName P [d]) = [d] := by
    rw [hpc]
    exact afterLast_append_dot P d hdd
  refine ⟨hname, hlast, by rw [hlast], ?_, ?_⟩
  · rw [hpc]
    apply parseSegs_append_dot_digit
    simp [isDelim, digit_ne_of_not_digit hd (show ('-').isDigit = false by decide), hdd]
  · intro names hmem
    unfold portIterKeys
    rw [List.mem_filterMap]
    refine ⟨portChildName P [d], hmem, ?_⟩
    rw [if_pos hname, hlast]

/-- Witness for c2_nested_port_round_trip at parent "1-1" and digit 2,
i.e. the nested-port name "1-1.2". -/
theorem c2_nested_port_round_trip_witness :
    isSubPortName (portChildName "1-1".data ['2']) = true ∧
    afterLastChar '.' (portChildName "1-1".data ['2']) = ['2'] ∧
    portChildName "1-1".data (afterLastChar '.' (portChildName "1-1".data ['2'])) =
      portChildName "1-1".data ['2'] ∧
    parseSegs (portChildName "1-1".data ['2']) =
      parseSegs "1-1".data ++ [charDigitVal '2'] ∧
    (∀ names, portChildName "1-1".data ['2'] ∈ names →
      ['2'] ∈ portIterKeys names) :=
  c2_nested_port_round_trip "1-1".data '2' (by decide) (by decide)

/-! Lemmas for interface-name classification (claim C3). -/

theorem dotPairs_length : ∀ (ds : List Char), (dotPairs ds).length = 2 * ds.length := by
  intro ds
  induction ds with
  | nil => rfl
  | cons d ds ih =>
    show (dotPairs (d :: ds)).length = 2 * (ds.length + 1)
    simp only [dotPairs, List.length_cons, ih]
    omega

theorem ifaceTail_cons_cons (c d : Char) (rest : List Char)
    (hlen : rest.length ≠ 2) :
    ifaceTail (c :: d :: rest) = ((c = '.') && d.isDigit && ifaceTail rest) := by
  match rest with
  | [] => rfl
  | [a] => rfl
  | [a, b] => exact absurd rfl hlen
  | a :: b :: e :: r => rfl

theorem ifaceTail_bwd : ∀ (ds : List Char) (c x i : Char),
    (∀ d ∈ ds, d.isDigit = true) → c.isDigit = true → x ≠ '\n' →
    i.isDigit = true → ifaceTail (dotPairs ds ++ ':' :: c :: x :: [i]) = true := by
  intro ds
  induction ds with
  | nil =>
    intro c x i _ hc hx hi
    show ifaceTail [':', c, x, i] = true
    have hbne : (x != '\n') = true := by simp [hx]
    simp [ifaceTail, hc, hi, hbne]
  | cons d ds ih =>
    intro c x i hds hc hx hi
    show ifaceTail ('.' :: d :: (dotPairs ds ++ ':' :: c :: x :: [i])) = true
    rw [ifaceTail_cons_cons '.' d _ (by
      simp only [List.length_append, dotPairs_length, List.length_cons,
        List.length_nil]
      omega)]
    simp only [Bool.and_eq_true, decide_eq_true_eq]
    exact ⟨⟨trivial, hds d (List.mem_cons_self d ds)⟩,
      ih c x i (fun e he => hds e (List.mem_cons_of_mem d he)) hc hx hi⟩

theorem ifaceTail_fwd : ∀ (t : List Char), ifaceTail t = true →
    ∃ ds c x i, (∀ d ∈ ds, d.isDigit = true) ∧ c.isDigit = true ∧ x ≠ '\n' ∧
      i.isDigit = true ∧ t = dotPairs ds ++ ':' :: c :: x :: [i] := by
  have key : ∀ (n : Nat) (t : List Char), t.length ≤ n → ifaceTail t = true →
      ∃ ds c x i, (∀ d ∈ ds, d.isDigit = true) ∧ c.isDigit = true ∧ x ≠ '\n' ∧
        i.isDigit = true ∧ t = dotPairs ds ++ ':' :: c :: x :: [i] := by
    intro n
    induction n with
    | zero =>
      intro t ht h
      have ht0 : t = [] := List.eq_nil_of_length_eq_zero (Nat.le_zero.mp ht)
      subst ht0
      simp [ifaceTail] at h
    | succ m ih =>
      intro t ht h
      match t with
      | [] => simp [ifaceTail] at h
      | [a] => simp [ifaceTail] at h
      | [a, b] => simp [ifaceTail] at h
      | [a, b, e] => simp [ifaceTail] at h
      | [k, c, x, i] =>
        simp only [ifaceTail, Bool.and_eq_true, decide_eq_true_eq,
          bne_iff_ne, ne_eq] at h
        exact ⟨[], c, x, i, by simp, h.1.1.2, h.1.2, h.2, by rw [h.1.1.1]; rfl⟩
      | k :: c :: x :: i :: e :: r =>
        simp only [ifaceTail, Bool.and_eq_true, decide_eq_true_eq] at h
        have hlr : (x :: i :: e :: r).length ≤ m := by
          simp only [List.length_cons] at ht ⊢
          omega
        obtain ⟨ds, c2, x2, i2, hds, hc2, hx2, hi2, heq⟩ := ih (x :: i :: e :: r) hlr h.2
        refine ⟨c :: ds, c2, x2, i2, ?_, hc2, hx2, hi2, ?_⟩
        · intro d hd
          rcases List.mem_cons.mp hd with rfl | hd2
          · exact h.1.2
          · exact hds d hd2
        · show k :: c :: (x :: i :: e :: r) = '.' :: c :: (dotPairs ds ++ ':' :: c2 :: x2 :: [i2])
          rw [h.1.1, heq]
  intro t
  exact key t.length t (Nat.le_refl _)

theorem isInterfaceCore_iff (n : Name) :
    isInterfaceCore n = true ↔ InterfaceShape n := by
  constructor
  · intro h
    match n with
    | [] => simp [isInterfaceCore] at h
    | [a] => simp [isInterfaceCore] at h
    | [a, b] => simp [isInterfaceCore] at h
    | b :: hh :: p :: rest =>
      simp only [isInterfaceCore, Bool.and_eq_true, decide_eq_true_eq] at h
      obtain ⟨ds, c, x, i, hds, hc, hx, hi, hrest⟩ := ifaceTail_fwd rest h.2
      exact ⟨b, p, ds, c, x, i, h.1.1.1, h.1.2, hds, hc, hx, hi, by
        rw [h.1.1.2, hrest]⟩
  · rintro ⟨b, p, ds, c, x, i, hb, hp, hds, hc, hx, hi, rfl⟩
    show isInterfaceCore (b :: '-' :: p :: (dotPairs ds ++ ':' :: c :: x :: [i])) = true
    simp only [isInterfaceCore, Bool.and_eq_true, decide_eq_true_eq]
    exact ⟨⟨⟨hb, trivial⟩, hp⟩, ifaceTail_bwd ds c x i hds hc hx hi⟩

theorem ifaceBuild_mem :
    ∀ (ns : List Name) (es : List Entry) (l : List (Name × FSNode)),
    ifaceBuild es ns = .ok l → ∀ (n : Name) (v : FSNode),
    ((n, v) ∈ l ↔ n ∈ ns ∧ isInterfaceName n = true ∧
      lookupEntry es n = some v ∧ ∃ ces, v = FSNode.dir ces) := by
  intro ns
  induction ns with
  | nil =>
    intro es l h n v
    have hl : l = [] := by
      unfold ifaceBuild at h
      exact (Except.ok.inj h).symm
    subst hl
    constructor
    · intro hmem
      cases hmem
    · rintro ⟨hn, _⟩
      cases hn
  | cons m ns ih =>
    intro es l h n v
    by_cases hm : isInterfaceName m = true
    · unfold ifaceBuild at h
      rw [if_pos hm] at h
      cases hl : lookupEntry es m with
      | none =>
        rw [hl] at h
        cases h
      | some w =>
        rw [hl] at h
        cases w with
        | file rd ct => cases h
        | dir ces =>
          cases hb : ifaceBuild es ns with
          | error e =>
            rw [hb] at h
            cases h
          | ok t =>
            rw [hb] at h
            have hlt : l = (m, FSNode.dir ces) :: t := (Except.ok.inj h).symm
            subst hlt
            constructor
            · intro hmem
              rcases List.mem_cons.mp hmem with heq | hmem2
              · have hn : n = m := congrArg Prod.fst heq
                have hv : v = FSNode.dir ces := congrArg Prod.snd heq
                subst hn
                refine ⟨List.mem_cons_self _ _, hm, ?_, ces, hv⟩
                rw [hl, hv]
              · obtain ⟨hn, hrest⟩ := ((ih es t hb n v).mp hmem2)
                exact ⟨List.mem_cons_of_mem m hn, hrest⟩
            · rintro ⟨hn, hmatch, hlook, ces2, rfl⟩
              rcases List.mem_cons.mp hn with rfl | hn2
              · have : FSNode.dir ces = FSNode.dir ces2 := by
                  rw [hl] at hlook
                  exact Option.some.inj hlook
                rw [← this]
                exact List.mem_cons_self _ _
              · exact List.mem_cons_of_mem _
                  ((ih es t hb n _).mpr ⟨hn2, hmatch, hlook, ces2, rfl⟩)
    · unfold ifaceBuild at h
      rw [if_neg hm] at h
      constructor
      · intro hmem
        obtain ⟨hn, hrest⟩ := (ih es l h n v).mp hmem
        exact ⟨List.mem_cons_of_mem m hn, hrest⟩
      · rintro ⟨hn, hmatch, hlook, ces2, rfl⟩
        rcases List.mem_cons.mp hn with rfl | hn2
        · exact absurd hmatch hm
        · exact (ih es l h n _).mpr ⟨hn2, hmatch, hlook, ces2, rfl⟩

/-- Claim C3, counterexample: with a Port whose path string is "1-1", the
listing entry "1-1:1X0" (no literal dot between config and interface
number) and the entry "2-3:1.0" (device path different from the parent's)
are both classified as interfaces, while "1-1:10.0" (well-formed per the
claim, but with a two-digit config) is not. -/
theorem c3_counterexample :
    interfacesOf [("1-1:1X0".data, FSNode.dir []),
      ("2-3:1.0".data, FSNode.dir []), ("1-1:10.0".data, FSNode.dir [])] =
      .ok [("1-1:1X0".data, FSNode.dir []), ("2-3:1.0".data, FSNode.dir [])] ∧
    isInterfaceName "1-1:10.0".data = false := by
  exact ⟨rfl, rfl⟩

/-- Claim C3, amended: a directory entry is classified as an interface
exactly when its name matches the anchored pattern digit, dash, digit,
any number of dot-digit pairs, colon, digit, any single non-newline
character, digit — optionally followed by one trailing newline tolerated
by Python's $ — and the entry is a directory; the parent's path string is
never compared against the name, and all digit runs are single digits. -/
theorem c3_amended_interface_classification :
    (∀ n : Name, isInterfaceName n = true ↔
      (InterfaceShape n ∨ ∃ m, InterfaceShape m ∧ n = m ++ ['\n'])) ∧
    (∀ (es : List Entry) (l : List (Name × FSNode)), interfacesOf es = .ok l →
      ∀ (n : Name) (v : FSNode),
      ((n, v) ∈ l ↔ n ∈ es.map Prod.fst ∧ isInterfaceName n = true ∧
        lookupEntry es n = some v ∧ ∃ ces, v = FSNode.dir ces)) := by
  constructor
  · intro n
    unfold isInterfaceName
    rw [pyMatchDollar_iff]
    constructor
    · rintro (h | ⟨t, rfl, h⟩)
      · exact Or.inl ((isInterfaceCore_iff n).mp h)
      · exact Or.inr ⟨t, (isInterfaceCore_iff t).mp h, rfl⟩
    · rintro (h | ⟨m, hm, rfl⟩)
      · exact Or.inl ((isInterfaceCore_iff n).mpr h)
      · exact Or.inr ⟨m, rfl, (isInterfaceCore_iff m).mpr hm⟩
  · intro es l h n v
    exact ifaceBuild_mem (es.map Prod.fst) es l h n v

/-- Witness for c3_amended_interface_classification: "1-1:1.0" is
classified. -/
theorem c3_amended_interface_classification_witness :
    isInterfaceName "1-1:1.0".data = true :=
  (c3_amended_interface_classification.1 "1-1:1.0".data).mpr
    (Or.inl ⟨'1', '1', [], '1', '.', '0', by decide, by decide, by simp,
      by decide, by decide, by decide, rfl⟩)

/-! Claim C5: serial-device resolution. -/

theorem ttyListAux_skip :
    ∀ (es1 : List Entry) (F : Nat) (X : List Entry),
    (∀ e ∈ es1, leadsWith ttyName e.1 = false) →
    ttyListAux (es1.length + F) (es1 ++ X) = ttyListAux F X := by
  intro es1
  induction es1 with
  | nil =>
    intro F X _
    simp
  | cons e rest ih =>
    intro F X hno
    obtain ⟨n, sub⟩ := e
    have hlen : ((n, sub) :: rest).length + F = (rest.length + F) + 1 := by
      simp only [List.length_cons]
      omega
    rw [hlen]
    show ttyListAux ((rest.length + F) + 1) ((n, sub) :: (rest ++ X)) = ttyListAux F X
    have hn : leadsWith ttyName n = false := hno (n, sub) (List.mem_cons_self _ _)
    simp only [ttyListAux, hn]
    exact ih F X (fun e he => hno e (List.mem_cons_of_mem _ he))

theorem ttyListAux_mono :
    ∀ (f g : Nat) (es : List Entry) (r : Option Name), f ≤ g →
    ttyListAux f es = .ok r → ttyListAux g es = .ok r := by
  intro f
  induction f with
  | zero =>
    intro g es r _ h
    simp [ttyListAux] at h
  | succ m ih =>
    intro g es r hfg h
    obtain ⟨g2, rfl⟩ : ∃ g2, g = g2 + 1 := ⟨g - 1, by omega⟩
    match es with
    | [] => exact h
    | (n, sub) :: rest =>
      simp only [ttyListAux] at h ⊢
      by_cases hl : leadsWith ttyName n = true
      · rw [if_pos hl] at h ⊢
        by_cases he : n = ttyName
        · rw [if_pos he] at h ⊢
          cases sub with
          | file rd ct => exact h
          | dir ces => exact ih g2 ces r (by omega) h
        · rw [if_neg he] at h ⊢
          exact h
      · rw [if_neg hl] at h ⊢
        exact ih g2 rest r (by omega) h

/-- Claim C5: in match_tty's search of a listing, (1) the first entry
starting with "tty" that is named exactly "tty" makes the search recurse
into that entry's directory and return whatever the recursive search
returns; (2) the first entry starting with "tty" under any other name is
returned directly; (3) a listing with no entry starting with "tty"
resolves to None; (4) concretely, an interface directory holding
tty/ttyUSB0 resolves to "ttyUSB0"; and (5) a directory with neither
pattern resolves to None. -/
theorem c5_tty_resolution :
    (∀ (f : Nat) (ces : List Entry) (es1 es2 : List Entry),
      (∀ e ∈ es1, leadsWith ttyName e.1 = false) →
      ttyListAux (es1.length + (f + 1))
        (es1 ++ (ttyName, FSNode.dir ces) :: es2) = ttyListAux f ces) ∧
    (∀ (f : Nat) (t : Name) (sub : FSNode) (es1 es2 : List Entry),
      (∀ e ∈ es1, leadsWith ttyName e.1 = false) →
      leadsWith ttyName t = true → t ≠ ttyName →
      ttyListAux (es1.length + (f + 1)) (es1 ++ (t, sub) :: es2) =
        .ok (some t)) ∧
    (∀ (f : Nat) (es : List Entry),
      (∀ e ∈ es, leadsWith ttyName e.1 = false) →
      ttyListAux (es.length + (f + 1)) es = .ok none) ∧
    (ttyNode 2 (FSNode.dir [(ttyName, FSNode.dir
      [("ttyUSB0".data, FSNode.dir [])])]) = .ok (some "ttyUSB0".data)) ∧
    (ttyNode 3 (FSNode.dir [("power".data, FSNode.dir []),
      ("driver".data, FSNode.file true [])]) = .ok none) := by
  have hself : leadsWith ttyName ttyName = true := by decide
  refine ⟨?_, ?_, ?_, rfl, rfl⟩
  · intro f ces es1 es2 hno
    rw [ttyListAux_skip es1 (f + 1) _ hno]
    simp [ttyListAux, hself]
  · intro f t sub es1 es2 hno hlead hne
    rw [ttyListAux_skip es1 (f + 1) _ hno]
    simp [ttyListAux, hlead, hne]
  · intro f es hno
    induction es with
    | nil => rfl
    | cons e rest ih =>
      obtain ⟨n, sub⟩ := e
      have hlen : ((n, sub) :: rest).length + (f + 1) =
          (rest.length + (f + 1)) + 1 := by
        simp only [List.length_cons]
        omega
      rw [hlen]
      show ttyListAux ((rest.length + (f + 1)) + 1) ((n, sub) :: rest) = .ok none
      have hn : leadsWith ttyName n = false := hno (n, sub) (List.mem_cons_self _ _)
      simp only [ttyListAux, hn]
      exact ih (fun e he => hno e (List.mem_cons_of_mem _ he))

/-- Witness for c5_tty_resolution: skipping a non-tty entry, the search
recurses into the "tty" subdirectory. -/
theorem c5_tty_resolution_witness :
    ttyListAux (([("power".data, FSNode.dir [])] : List Entry).length + (3 + 1))
      ([("power".data, FSNode.dir [])] ++
        (ttyName, FSNode.dir [("ttyS0".data, FSNode.dir [])]) :: []) =
      ttyListAux 3 [("ttyS0".data, FSNode.dir [])] :=
  c5_tty_resolution.1 3 [("ttyS0".data, FSNode.dir [])]
    [("power".data, FSNode.dir [])] [] (by decide)

/-! Claim C10: constructor validation. -/

/-- Claim C10: the Bus, Port and Interface constructors raise ValueError
unless the given path is an existing directory, so a successful
construction implies the path was a directory; USB.__init__ stores its
path without any validation; and every node handed out by the __getitem__
methods or by interfaces() is backed by a directory at the moment of its
construction. -/
theorem c10_constructor_validation :
    (∀ (root : FSNode) (name : Name) (p : List Name) (b : BusObj),
      busInit root name p = .ok b → isDirAt root p = true) ∧
    (∀ (root : FSNode) (name : Name) (p : List Name) (b : PortObj),
      portInit root name p = .ok b → isDirAt root p = true) ∧
    (∀ (root : FSNode) (p : List Name) (b : IfaceObj),
      ifaceInit root p = .ok b → isDirAt root p = true) ∧
    (∀ (root : FSNode) (p : List Name), usbInit root p = .ok ⟨p⟩) ∧
    (∀ (es : List Entry) (key : Name) (nv : Name × FSNode),
      usbGetItem es key = .ok nv → ∃ ces, nv.2 = FSNode.dir ces) ∧
    (∀ (bn : Name) (es : List Entry) (key : Name) (nv : Name × FSNode),
      busGetItem bn es key = .ok nv → ∃ ces, nv.2 = FSNode.dir ces) ∧
    (∀ (pn : Name) (es : List Entry) (key : Name) (nv : Name × FSNode),
      portGetItem pn es key = .ok nv → ∃ ces, nv.2 = FSNode.dir ces) ∧
    (∀ (es : List Entry) (l : List (Name × FSNode)), interfacesOf es = .ok l →
      ∀ nv ∈ l, ∃ ces, nv.2 = FSNode.dir ces) := by
  refine ⟨?_, ?_, ?_, ?_, ?_, ?_, ?_, ?_⟩
  · intro root name p b hb
    unfold busInit at hb
    by_cases h : isDirAt root p = true
    · exact h
    · rw [if_neg h] at hb
      cases hb
  · intro root name p b hb
    unfold portInit at hb
    by_cases h : isDirAt root p = true
    · exact h
    · rw [if_neg h] at hb
      cases hb
  · intro root p b hb
    unfold ifaceInit at hb
    by_cases h : isDirAt root p = true
    · exact h
    · rw [if_neg h] at hb
      cases hb
  · intro root p
    rfl
  · intro es key nv h
    unfold usbGetItem getDirEntry at h
    cases hl : lookupEntry es (usbChildName key) with
    | none => rw [hl] at h; cases h
    | some w =>
      rw [hl] at h
      cases w with
      | file rd ct => cases h
      | dir ces =>
        have : (key, FSNode.dir ces) = nv := Except.ok.inj h
        exact ⟨ces, by rw [← this]⟩
  · intro bn es key nv h
    unfold busGetItem getDirEntry at h
    cases hl : lookupEntry es (busChildName bn key) with
    | none => rw [hl] at h; cases h
    | some w =>
      rw [hl] at h
      cases w with
      | file rd ct => cases h
      | dir ces =>
        have : (busChildName bn key, FSNode.dir ces) = nv := Except.ok.inj h
        exact ⟨ces, by rw [← this]⟩
  · intro pn es key nv h
    unfold portGetItem getDirEntry at h
    cases hl : lookupEntry es (portChildName pn key) with
    | none => rw [hl] at h; cases h
    | some w =>
      rw [hl] at h
      cases w with
      | file rd ct => cases h
      | dir ces =>
        have : (portChildName pn key, FSNode.dir ces) = nv := Except.ok.inj h
        exact ⟨ces, by rw [← this]⟩
  · intro es l h nv hmem
    obtain ⟨n, v⟩ := nv
    obtain ⟨_, _, _, ces, hv⟩ := (ifaceBuild_mem (es.map Prod.fst) es l h n v).mp hmem
    exact ⟨ces, hv⟩

/-- Witness for c10_constructor_validation: a successful Bus construction
on an existing directory. -/
theorem c10_constructor_validation_witness :
    isDirAt (FSNode.dir [("usb1".data, FSNode.dir [])]) ["usb1".data] = true :=
  c10_constructor_validation.1 (FSNode.dir [("usb1".data, FSNode.dir [])])
    "1".data ["usb1".data] ⟨"1".data, ["usb1".data]⟩ rfl

/-! Aggregation lemmas (claims C8 and C9). -/

theorem filterTtyE_sub :
    ∀ (g : Nat) (li kept : List (Name × FSNode)),
    filterTtyE g li = .ok kept → ∀ i ∈ kept, i ∈ li := by
  intro g li
  induction li with
  | nil =>
    intro kept h i hi
    unfold filterTtyE at h
    have : kept = [] := (Except.ok.inj h).symm
    subst this
    cases hi
  | cons j rest ih =>
    intro kept h i hi
    unfold filterTtyE at h
    cases ht : ttyNode g j.2 with
    | error e =>
      simp only [ht] at h
      exact Except.noConfusion h
    | ok o =>
      simp only [ht] at h
      cases o with
      | none => exact List.mem_cons_of_mem j (ih kept h i hi)
      | some t =>
        cases hr : filterTtyE g rest with
        | error e =>
          simp only [hr] at h
          exact Except.noConfusion h
        | ok kt =>
          simp only [hr] at h
          have : kept = j :: kt := (Except.ok.inj h).symm
          subst this
          rcases List.mem_cons.mp hi with rfl | hi2
          · exact List.mem_cons_self _ _
          · exact List.mem_cons_of_mem j (ih kt hr i hi2)

theorem filterTtyE_some :
    ∀ (g : Nat) (li kept : List (Name × FSNode)),
    filterTtyE g li = .ok kept →
    ∀ i ∈ kept, ∃ t, ttyNode g i.2 = .ok (some t) := by
  intro g li
  induction li with
  | nil =>
    intro kept h i hi
    unfold filterTtyE at h
    have : kept = [] := (Except.ok.inj h).symm
    subst this
    cases hi
  | cons j rest ih =>
    intro kept h i hi
    unfold filterTtyE at h
    cases ht : ttyNode g j.2 with
    | error e =>
      simp only [ht] at h
      exact Except.noConfusion h
    | ok o =>
      simp only [ht] at h
      cases o with
      | none => exact ih kept h i hi
      | some t =>
        cases hr : filterTtyE g rest with
        | error e =>
          simp only [hr] at h
          exact Except.noConfusion h
        | ok kt =>
          simp only [hr] at h
          have : kept = j :: kt := (Except.ok.inj h).symm
          subst this
          rcases List.mem_cons.mp hi with rfl | hi2
          · exact ⟨t, ht⟩
          · exact ih kt hr i hi2

/-- Inversion of a ChildOf step whose parent is a listed directory. -/
theorem childOf_inv {k : NKind} {es : List Entry} {c : NKind × FSNode}
    (h : ChildOf (k, FSNode.dir es) c) :
    ∃ cs, childDerive k es = .ok cs ∧ c ∈ cs := by
  cases h
  rename_i cs hcd hm
  exact ⟨cs, hcd, hm⟩

theorem aggAux_mem_fwd :
    ∀ (f : Nat) (tty : Bool) (task : AggTask) (l : List (Name × FSNode)),
    aggAux f tty task = .ok l → ∀ i ∈ l, AggConc task i := by
  intro f
  induction f with
  | zero =>
    intro tty task l h
    simp [aggAux] at h
  | succ m ih =>
    intro tty task l h
    match task with
    | AggTask.node kind n =>
      cases n with
      | file rd ct => simp [aggAux] at h
      | dir es =>
        simp only [aggAux] at h
        cases hcd : childDerive kind es with
        | error e =>
          simp only [hcd] at h
          exact Except.noConfusion h
        | ok cs =>
          simp only [hcd] at h
          intro i hi
          obtain ⟨c0, hc0, hcase⟩ := ih tty (AggTask.kids cs) l h i hi
          have hchild : ChildOf (kind, FSNode.dir es) c0 :=
            ChildOf.intro kind es cs c0 hcd hc0
          show ∃ c, Reach (kind, FSNode.dir es) c ∧ HasIface c i
          rcases hcase with hhas | ⟨c, hreach, hhas⟩
          · exact ⟨c0, Reach.base hchild, hhas⟩
          · exact ⟨c, Reach.step hchild hreach, hhas⟩
    | AggTask.kids [] =>
      simp only [aggAux] at h
      have : l = [] := (Except.ok.inj h).symm
      subst this
      intro i hi
      cases hi
    | AggTask.kids ((ck, cn) :: rest) =>
      simp only [aggAux] at h
      cases hni : nodeInterfaces cn with
      | error e =>
        simp only [hni] at h
        exact Except.noConfusion h
      | ok li =>
        simp only [hni] at h
        have hkli : ∀ kept,
            (if tty = true then filterTtyE (m + 1) li else Except.ok li) = .ok kept →
            ∀ j ∈ kept, j ∈ li := by
          intro kept hk j hj
          cases tty with
          | false =>
            have : li = kept := Except.ok.inj hk
            rw [this]
            exact hj
          | true => exact filterTtyE_sub (m + 1) li kept hk j hj
        cases hkept : (if tty = true then filterTtyE (m + 1) li else Except.ok li) with
        | error e =>
          simp only [hkept] at h
          exact Except.noConfusion h
        | ok kept =>
          simp only [hkept] at h
          cases hsub : aggAux m tty (AggTask.node ck cn) with
          | error e =>
            simp only [hsub] at h
            exact Except.noConfusion h
          | ok sub =>
            simp only [hsub] at h
            cases htail : aggAux m tty (AggTask.kids rest) with
            | error e =>
              simp only [htail] at h
              exact Except.noConfusion h
            | ok tail =>
              simp only [htail] at h
              have hl : l = kept ++ sub ++ tail := (Except.ok.inj h).symm
              subst hl
              intro i hi
              rcases List.mem_append.mp hi with hi12 | hi3
              · rcases List.mem_append.mp hi12 with hi1 | hi2
                · exact ⟨(ck, cn), List.mem_cons_self _ _,
                    Or.inl ⟨li, hni, hkli kept hkept i hi1⟩⟩
                · obtain ⟨c, hreach, hhas⟩ :=
                    ih tty (AggTask.node ck cn) sub hsub i hi2
                  exact ⟨(ck, cn), List.mem_cons_self _ _,
                    Or.inr ⟨c, hreach, hhas⟩⟩
              · obtain ⟨c0, hc0, hcase⟩ :=
                  ih tty (AggTask.kids rest) tail htail i hi3
                exact ⟨c0, List.mem_cons_of_mem _ hc0, hcase⟩

theorem aggAux_mem_bwd :
    ∀ (f : Nat) (task : AggTask) (l : List (Name × FSNode)),
    aggAux f false task = .ok l → ∀ i, AggConc task i → i ∈ l := by
  intro f
  induction f with
  | zero =>
    intro task l h
    simp [aggAux] at h
  | succ m ih =>
    intro task l h i hconc
    match task with
    | AggTask.node kind n =>
      cases n with
      | file rd ct => simp [aggAux] at h
      | dir es =>
        simp only [aggAux] at h
        cases hcd : childDerive kind es with
        | error e =>
          simp only [hcd] at h
          exact Except.noConfusion h
        | ok cs =>
          simp only [hcd] at h
          obtain ⟨c, hreach, hhas⟩ := hconc
          apply ih (AggTask.kids cs) l h i
          cases hreach with
          | base hb =>
            obtain ⟨cs2, hcd2, hm2⟩ := childOf_inv hb
            rw [hcd] at hcd2
            have : cs2 = cs := (Except.ok.inj hcd2.symm)
            subst this
            exact ⟨c, hm2, Or.inl hhas⟩
          | step hb hr =>
            rename_i b
            obtain ⟨cs2, hcd2, hm2⟩ := childOf_inv hb
            rw [hcd] at hcd2
            have : cs2 = cs := (Except.ok.inj hcd2.symm)
            subst this
            exact ⟨b, hm2, Or.inr ⟨c, hr, hhas⟩⟩
    | AggTask.kids [] =>
      obtain ⟨c0, hc0, _⟩ := hconc
      cases hc0
    | AggTask.kids ((ck, cn) :: rest) =>
      rw [show aggAux (m + 1) false (AggTask.kids ((ck, cn) :: rest)) =
        (match nodeInterfaces cn with
         | .error e => .error e
         | .ok li =>
           match aggAux m false (AggTask.node ck cn) with
           | .error e => .error e
           | .ok sub =>
             match aggAux m false (AggTask.kids rest) with
             | .error e => .error e
             | .ok tail => .ok (li ++ sub ++ tail)) from rfl] at h
      cases hni : nodeInterfaces cn with
      | error e =>
        simp only [hni] at h
        exact Except.noConfusion h
      | ok li =>
        simp only [hni] at h
        cases hsub : aggAux m false (AggTask.node ck cn) with
        | error e =>
          simp only [hsub] at h
          exact Except.noConfusion h
        | ok sub =>
          simp only [hsub] at h
          cases htail : aggAux m false (AggTask.kids rest) with
          | error e =>
            simp only [htail] at h
            exact Except.noConfusion h
          | ok tail =>
            simp only [htail] at h
            have hl : l = li ++ sub ++ tail := (Except.ok.inj h).symm
            subst hl
            obtain ⟨c0, hc0, hcase⟩ := hconc
            rcases List.mem_cons.mp hc0 with rfl | hc0r
            · rcases hcase with ⟨li2, hni2, hmem2⟩ | ⟨c, hreach, hhas⟩
              · have : li2 = li := by
                  rw [hni] at hni2
                  exact Except.ok.inj hni2.symm
                subst this
                exact List.mem_append.mpr (Or.inl (List.mem_append.mpr (Or.inl hmem2)))
              · have := ih (AggTask.node ck cn) sub hsub i ⟨c, hreach, hhas⟩
                exact List.mem_append.mpr (Or.inl (List.mem_append.mpr (Or.inr this)))
            · have := ih (AggTask.kids rest) tail htail i ⟨c0, hc0r, hcase⟩
              exact List.mem_append.mpr (Or.inr this)

theorem aggAux_tty_some :
    ∀ (f : Nat) (task : AggTask) (l : List (Name × FSNode)),
    aggAux f true task = .ok l →
    ∀ i ∈ l, ∃ g t, ttyNode g i.2 = .ok (some t) := by
  intro f
  induction f with
  | zero =>
    intro task l h
    simp [aggAux] at h
  | succ m ih =>
    intro task l h i hi
    match task with
    | AggTask.node kind n =>
      cases n with
      | file rd ct => simp [aggAux] at h
      | dir es =>
        simp only [aggAux] at h
        cases hcd : childDerive kind es with
        | error e =>
          simp only [hcd] at h
          exact Except.noConfusion h
        | ok cs =>
          simp only [hcd] at h
          exact ih (AggTask.kids cs) l h i hi
    | AggTask.kids [] =>
      simp only [aggAux] at h
      have : l = [] := (Except.ok.inj h).symm
      subst this
      cases hi
    | AggTask.kids ((ck, cn) :: rest) =>
      rw [show aggAux (m + 1) true (AggTask.kids ((ck, cn) :: rest)) =
        (match nodeInterfaces cn with
         | .error e => .error e
         | .ok li =>
           match filterTtyE (m + 1) li with
           | .error e => .error e
           | .ok kept =>
             match aggAux m true (AggTask.node ck cn) with
             | .error e => .error e
             | .ok sub =>
               match aggAux m true (AggTask.kids rest) with
               | .error e => .error e
               | .ok tail => .ok (kept ++ sub ++ tail)) from rfl] at h
      cases hni : nodeInterfaces cn with
      | error e =>
        simp only [hni] at h
        exact Except.noConfusion h
      | ok li =>
        simp only [hni] at h
        cases hkept : filterTtyE (m + 1) li with
        | error e =>
          simp only [hkept] at h
          exact Except.noConfusion h
        | ok kept =>
          simp only [hkept] at h
          cases hsub : aggAux m true (AggTask.node ck cn) with
          | error e =>
            simp only [hsub] at h
            exact Except.noConfusion h
          | ok sub =>
            simp only [hsub] at h
            cases htail : aggAux m true (AggTask.kids rest) with
            | error e =>
              simp only [htail] at h
              exact Except.noConfusion h
            | ok tail =>
              simp only [htail] at h
              have hl : l = kept ++ sub ++ tail := (Except.ok.inj h).symm
              subst hl
              rcases List.mem_append.mp hi with hi12 | hi3
              · rcases List.mem_append.mp hi12 with hi1 | hi2
                · obtain ⟨t, ht⟩ := filterTtyE_some (m + 1) li kept hkept i hi1
                  exact ⟨m + 1, t, ht⟩
                · exact ih (AggTask.node ck cn) sub hsub i hi2
              · exact ih (AggTask.kids rest) tail htail i hi3

/-- Claim C8: when aggregated_interfaces(tty=False) succeeds on the root,
the returned flat list holds exactly the interfaces of the Bus/Port nodes
properly reachable from the root through the values() child relation
(every visited node contributing its interfaces); moreover the recursion
computes, child by child in enumeration order, the child's interfaces
followed by the child's whole subtree contribution — parents before
children — exactly as the spec-modelled depth-first collector specDfsAux
does. -/
theorem c8_aggregate_dfs :
    (∀ (fuel : Nat) (root : FSNode) (l : List (Name × FSNode)),
      aggregatedInterfaces fuel root false = .ok l →
      ∀ i, (i ∈ l ↔ ∃ c, Reach (NKind.root, root) c ∧ HasIface c i)) ∧
    (∀ (fuel : Nat) (task : AggTask),
      aggAux fuel false task = specDfsAux fuel task) := by
  constructor
  · intro fuel root l h i
    constructor
    · intro hi
      exact aggAux_mem_fwd fuel false (AggTask.node NKind.root root) l h i hi
    · intro hex
      exact aggAux_mem_bwd fuel (AggTask.node NKind.root root) l h i hex
  · intro fuel
    induction fuel with
    | zero => intro task; rfl
    | succ m ih =>
      intro task
      match task with
      | AggTask.node kind n =>
        cases n with
        | file rd ct => rfl
        | dir es =>
          simp only [aggAux, specDfsAux]
          cases childDerive kind es with
          | error e => rfl
          | ok cs => exact ih (AggTask.kids cs)
      | AggTask.kids [] => rfl
      | AggTask.kids ((ck, cn) :: rest) =>
        rw [show aggAux (m + 1) false (AggTask.kids ((ck, cn) :: rest)) =
          (match nodeInterfaces cn with
           | .error e => .error e
           | .ok li =>
             match aggAux m false (AggTask.node ck cn) with
             | .error e => .error e
             | .ok sub =>
               match aggAux m false (AggTask.kids rest) with
               | .error e => .error e
               | .ok tail => .ok (li ++ sub ++ tail)) from rfl]
        rw [ih (AggTask.node ck cn), ih (AggTask.kids rest)]
        rfl

/-- Witness for c8_aggregate_dfs: the single interface aggregated from
usb1/1-1/1-1:1.0 sits at a reachable descendant. -/
theorem c8_aggregate_dfs_witness :
    ∃ c, Reach (NKind.root, FSNode.dir [("usb1".data, FSNode.dir [("1-1".data,
      FSNode.dir [("1-1:1.0".data, FSNode.dir [])])])]) c ∧
    HasIface c ("1-1:1.0".data, FSNode.dir []) :=
  (c8_aggregate_dfs.1 20
    (FSNode.dir [("usb1".data, FSNode.dir [("1-1".data,
      FSNode.dir [("1-1:1.0".data, FSNode.dir [])])])])
    [("1-1:1.0".data, FSNode.dir [])] rfl
    ("1-1:1.0".data, FSNode.dir [])).mp (List.mem_singleton.mpr rfl)

theorem not_reach_of_empty_dir :
    ∀ (k : NKind) (c : NKind × FSNode), ¬ Reach (k, FSNode.dir []) c := by
  have hstep : ∀ (k2 : NKind) (c2 : NKind × FSNode),
      ¬ ChildOf (k2, FSNode.dir []) c2 := by
    intro k2 c2 hc
    obtain ⟨cs, hcd, hm⟩ := childOf_inv hc
    have h0 : childDerive k2 ([] : List Entry) = .ok [] := by
      cases k2 <;> rfl
    rw [h0] at hcd
    have : cs = [] := (Except.ok.inj hcd).symm
    subst this
    cases hm
  intro k c h
  cases h with
  | base hb => exact hstep _ _ hb
  | step hb hr => exact hstep _ _ hb

/-- Claim C9: when aggregation succeeds and no reachable node exposes any
interface, the result is the empty list; and when ttyOnly is set, every
interface in the result has a successful, present tty resolution (an
interface whose tty resolves to None is never included). -/
theorem c9_aggregate_tty_filter :
    (∀ (fuel : Nat) (root : FSNode) (tty : Bool) (l : List (Name × FSNode)),
      aggregatedInterfaces fuel root tty = .ok l →
      (∀ c, Reach (NKind.root, root) c → nodeInterfaces c.2 = .ok []) →
      l = []) ∧
    (∀ (fuel : Nat) (root : FSNode) (l : List (Name × FSNode)),
      aggregatedInterfaces fuel root true = .ok l →
      ∀ i ∈ l, ∃ g t, ttyNode g i.2 = .ok (some t)) := by
  constructor
  · intro fuel root tty l h hno
    apply List.eq_nil_iff_forall_not_mem.mpr
    intro i hi
    obtain ⟨c, hreach, li, hni, hmem⟩ :=
      aggAux_mem_fwd fuel tty (AggTask.node NKind.root root) l h i hi
    rw [hno c hreach] at hni
    have : ([] : List (Name × FSNode)) = li := Except.ok.inj hni
    rw [← this] at hmem
    cases hmem
  · intro fuel root l h i hi
    exact aggAux_tty_some fuel (AggTask.node NKind.root root) l h i hi

/-- Witness for c9_aggregate_tty_filter: the empty root aggregates to
nothing, and the usb1/1-1/1-1:1.0/tty/ttyACM0 tree keeps an interface
whose tty resolution is present. -/
theorem c9_aggregate_tty_filter_witness :
    ([] : List (Name × FSNode)) = [] ∧
    ∃ g t, ttyNode g (FSNode.dir [("tty".data, FSNode.dir
      [("ttyACM0".data, FSNode.dir [])])]) = .ok (some t) := by
  constructor
  · exact c9_aggregate_tty_filter.1 5 (FSNode.dir []) true [] rfl
      (fun c hr => absurd hr (not_reach_of_empty_dir NKind.root c))
  · exact c9_aggregate_tty_filter.2 20
      (FSNode.dir [("usb1".data, FSNode.dir [("1-1".data, FSNode.dir
        [("1-1:1.0".data, FSNode.dir [("tty".data, FSNode.dir
          [("ttyACM0".data, FSNode.dir [])])])])])])
      [("1-1:1.0".data, FSNode.dir [("tty".data, FSNode.dir
        [("ttyACM0".data, FSNode.dir [])])])] rfl
      ("1-1:1.0".data, FSNode.dir [("tty".data, FSNode.dir
        [("ttyACM0".data, FSNode.dir [])])])
      (List.mem_singleton.mpr rfl)

end Usbid
